import Mathlib

set_option maxRecDepth 8192

/-
Verification development for the "Tlumacz Problemator" application (src/app.py).

The application stores user accounts and per-account generation histories in a
document store (Qdrant used as a key-value store: named collections of points,
each point = id + dummy vector + payload dictionary).  We embed the store as an
association list of named collections of points, payloads as a sum of the two
payload shapes that the application writes, uuid/time/salt generation as
counters threaded through an application state, and float arithmetic as exact
rational arithmetic.
-/

namespace App
/-- Payload dictionary written by `register_user` / rewritten by
`reset_password` in src/app.py (keys: username, hashed_password, email,
created_at). -/
structure UserPayload where
  username : String
  hashed_password : String
  email : String
  created_at : Nat
deriving DecidableEq

/-- Payload dictionary written by `save_history` in src/app.py (keys: type,
prompt, generated_text, cost_usd, cost_pln, timestamp).  Float costs are
embedded as exact rationals. -/
structure GenPayload where
  type : String
  prompt : String
  generated_text : String
  cost_usd : Rat
  cost_pln : Rat
  timestamp : Nat
deriving DecidableEq

/-- A stored payload is one of the two dictionary shapes the application ever
writes. -/
inductive Payload where
  | user : UserPayload → Payload
  | gen : GenPayload → Payload
deriving DecidableEq

/-- A Qdrant point: id, (dummy) vector, payload.  Point ids are uuid strings in
the source; we embed them as naturals minted from a freshness counter. -/
structure Point where
  id : Nat
  vector : List Rat
  payload : Payload
deriving DecidableEq

/-- A named collection of points. -/
abbrev Collection := List Point

/-- The document store: a list of (collection name, points) pairs, in creation
order. -/
abbrev Store := List (String × Collection)

/-- payload.get "username": present exactly on user payloads. -/
def payload_username : Payload → Option String
  | .user u => some u.username
  | .gen _ => none

/-- payload.get "email": present exactly on user payloads. -/
def payload_email : Payload → Option String
  | .user u => some u.email
  | .gen _ => none

/-- payload.get "hashed_password": present exactly on user payloads. -/
def payload_hashed : Payload → Option String
  | .user u => some u.hashed_password
  | .gen _ => none

/-- Is this payload a generation record? -/
def is_gen : Payload → Bool
  | .user _ => false
  | .gen _ => true

/-- One round of the scroll loop shared by `find_user`, `find_user_record`
and `get_history` in src/app.py: fetch a page of 50 points and follow the
continuation cursor while it is present, concatenating the pages.  The loop
runs at most length-many rounds; the fuel argument only bounds the recursion
and is always sufficient. -/
def scrollPages (fuel : Nat) (pts : Collection) : Collection :=
  match fuel with
  | 0 => pts
  | fuel + 1 =>
      if pts.length ≤ 50 then pts
      else pts.take 50 ++ scrollPages fuel (pts.drop 50)

/-- The full pagination scan of a collection. -/
def scrollAll (pts : Collection) : Collection :=
  scrollPages pts.length pts

/-- Modelled from the spec: the external bcrypt primitive embeds the salt of a
hash in the hash string itself; rehashing with a full hash as the salt
argument reuses that embedded salt.  We model the salt of a hash string as its
prefix up to the first separator character. -/
def bcrypt_salt_of (s : String) : String :=
  String.mk (s.data.takeWhile (fun c => c != '|'))

/-- Modelled from the spec: a fresh random salt; the source draws it from
bcrypt.gensalt(), we mint it from a counter.  Salt strings never contain the
separator character. -/
def bcrypt_gensalt (counter : Nat) : String :=
  String.mk (List.replicate counter 'S')

/-- Modelled from the spec: bcrypt.hashpw(password, salt_or_hash) deriving a
hash from the password and the salt embedded in the second argument.  The
model keeps exactly the two properties the spec states: deterministic format,
and the output determines the (salt, password) pair. -/
def bcrypt_hashpw (password salt_or_hash : String) : String :=
  bcrypt_salt_of salt_or_hash ++ "|" ++ password

/-- hash_password from src/app.py, with the salt drawn from the given counter
instead of a random source. -/
def hash_password (salt_counter : Nat) (password : String) : String :=
  bcrypt_hashpw password (bcrypt_gensalt salt_counter)

/-- check_password from src/app.py: rehash with the stored hash as the salt
argument and compare to the stored hash. -/
def check_password (password hashed : String) : Bool :=
  bcrypt_hashpw password hashed == hashed

/-- client.get_collections(): the list of collection names. -/
def collectionNames (st : Store) : List String :=
  st.map Prod.fst

/-- The points of the collection with the given name (the first one, in
creation order; the application never creates two collections with one
name). -/
def getCollection (st : Store) (name : String) : Option Collection :=
  (st.find? (fun c => c.1 == name)).map Prod.snd

/-- client.create_collection(name, ...): adds a new, empty collection. -/
def create_collection (st : Store) (name : String) : Store :=
  st ++ [(name, [])]

/-- client.upsert on one collection: replace the point with the same id if one
exists, otherwise append the new point. -/
def upsertPoint (pts : Collection) (pt : Point) : Collection :=
  if pts.any (fun q => q.id == pt.id) then
    pts.map (fun q => if q.id == pt.id then pt else q)
  else pts ++ [pt]

/-- client.upsert(collection_name, points=[pt]).  Upserting into a collection
that does not exist fails in the backing store; the application only upserts
into collections it has created, so we model that error case as the aborted
(unchanged) store. -/
def upsert (st : Store) (name : String) (pt : Point) : Store :=
  st.map (fun c => if c.1 == name then (c.1, upsertPoint c.2 pt) else c)

/-- The points of the user-record collection "users" (created at application
startup). -/
def usersPoints (st : Store) : Collection :=
  (getCollection st "users").getD []

/-- find_user from src/app.py: page through the whole "users" collection and
return the payload of the first point whose username field equals the query
(exact, case-sensitive). -/
def find_user (st : Store) (username : String) : Option Payload :=
  ((scrollAll (usersPoints st)).find?
    (fun pt => payload_username pt.payload == some username)).map Point.payload

/-- find_user_record from src/app.py: same scan as find_user but returns the
whole point (id and payload). -/
def find_user_record (st : Store) (username : String) : Option Point :=
  (scrollAll (usersPoints st)).find?
    (fun pt => payload_username pt.payload == some username)

/-- The mutable application-wide state: the document store plus the counters
standing for the uuid source, the wall clock and the salt source, plus the
session flags st.session_state["logged_in"] / ["username"]. -/
structure AppState where
  store : Store
  nextId : Nat
  clock : Nat
  nextSalt : Nat
  logged_in : Bool
  session_username : String
deriving DecidableEq

/-- register_user from src/app.py. -/
def register_user (s : AppState) (username password email : String) :
    AppState × Bool :=
  if (find_user s.store username).isSome then (s, false)
  else
    let payload : UserPayload :=
      ⟨username, hash_password s.nextSalt password, email, s.clock⟩
    let pt : Point := ⟨s.nextId, [0], Payload.user payload⟩
    (⟨upsert s.store "users" pt, s.nextId + 1, s.clock + 1, s.nextSalt + 1,
      s.logged_in, s.session_username⟩, true)

/-- login_user from src/app.py.  find_user only ever returns payloads carrying
a username field, i.e. user payloads, so the hashed_password field is present
on every reachable success path. -/
def login_user (st : Store) (username password : String) : Bool :=
  match find_user st username with
  | none => false
  | some payload =>
      match payload_hashed payload with
      | some hashed => check_password password hashed
      | none => false

/-- The payload rewrite performed by reset_password: copy the payload and
replace its hashed_password field.  The found record always carries a
username, hence is a user payload; the other branch is unreachable. -/
def set_hashed (p : Payload) (new_hashed : String) : Payload :=
  match p with
  | .user u => .user ⟨u.username, new_hashed, u.email, u.created_at⟩
  | .gen g => .gen g

/-- reset_password from src/app.py. -/
def reset_password (s : AppState) (username email new_password : String) :
    AppState × Bool :=
  match find_user_record s.store username with
  | none => (s, false)
  | some pt =>
      if payload_email pt.payload != some email then (s, false)
      else
        let new_hashed := hash_password s.nextSalt new_password
        (⟨upsert s.store "users" ⟨pt.id, [0], set_hashed pt.payload new_hashed⟩,
          s.nextId, s.clock, s.nextSalt + 1, s.logged_in, s.session_username⟩,
         true)

/-- create_user_collection_if_not_exists from src/app.py. -/
def create_user_collection_if_not_exists (st : Store) (username : String) :
    Store :=
  if (collectionNames st).contains username then st
  else create_collection st username

/-- save_history from src/app.py: insert one generation record with a fresh id
and the current timestamp into the collection named after the account. -/
def save_history (s : AppState) (account_name record_type prompt_text
    generated_text : String) (cost_usd cost_pln : Rat) : AppState :=
  let pt : Point :=
    ⟨s.nextId, [0],
      Payload.gen ⟨record_type, prompt_text, generated_text, cost_usd,
        cost_pln, s.clock⟩⟩
  ⟨upsert s.store account_name pt, s.nextId + 1, s.clock + 1, s.nextSalt,
    s.logged_in, s.session_username⟩

/-- get_history from src/app.py: page through the whole account collection and
return every point. -/
def get_history (st : Store) (account_name : String) : Collection :=
  scrollAll ((getCollection st account_name).getD [])

/-- Truthiness of the optional style argument in Python: `if style:` is true
exactly when style is neither None nor the empty string. -/
def style_truthy : Option String → Bool
  | none => false
  | some s => !s.isEmpty

/-- generate_prompt from src/app.py. -/
def generate_prompt (problem mode : String) (style : Option String) : String :=
  let prompt :=
    if mode = "Ulubione Universum" then
      let base := "Stwórz mi z tego problemu szczegółowe opowiadanie dla osoby, która go nie rozumie, aby mu wytłumaczyć."
      if style_truthy style then
        base ++ " Ale w stylu opowiadań " ++ style.getD "" ++ "."
      else base
    else if mode = "Zabawnie" then
      "Stwórz mi z tego problemu długi, kilkupoziomowy żart, ale taki śmieszny jak w try not laugh, dla osoby, która go nie rozumie, aby mu szczegółowo i po ludzku wytłumaczyć jak, bez żadnych innych wstawek i wytłumaczeń."
    else ""
  prompt ++ ("\nProblem: " ++ problem)

/-- approximate_token_count from src/app.py: max(1, len(text) // 4). -/
def approximate_token_count (text : String) : Nat :=
  max 1 (text.length / 4)

/-- calculate_cost from src/app.py, float arithmetic embedded as exact
rational arithmetic; the source default for exchange_rate is 4. -/
def calculate_cost (prompt_text generated_text : String)
    (exchange_rate : Rat) : Rat × Rat :=
  let prompt_tokens := approximate_token_count prompt_text
  let output_tokens := approximate_token_count generated_text
  let cost_prompt_usd : Rat := (prompt_tokens : Rat) * 2.5 / 1000000
  let cost_output_usd : Rat := (output_tokens : Rat) * 10.0 / 1000000
  let total_cost_usd := cost_prompt_usd + cost_output_usd
  let total_cost_pln := total_cost_usd * exchange_rate
  (total_cost_usd, total_cost_pln)

/-- One user-triggered action of the tabbed UI in main() of src/app.py.  The
generate action carries the completion response as an oracle value: some text
on success, none when the completion client failed. -/
inductive UserAction where
  | register (username password email : String)
  | login (username password : String)
  | reset (username email new_password confirm_password : String)
  | generate (problem mode : String) (style : Option String)
      (response : Option String)
deriving DecidableEq

/-- The application state right after startup from an empty store: main()
creates the "users" collection, the session is logged out. -/
def initState : AppState :=
  ⟨create_collection [] "users", 0, 0, 0, false, ""⟩

/-- One step of the application: the handler main() runs for each action,
including its input-validation guards. -/
def step (s : AppState) : UserAction → AppState
  | .register u p e =>
      if u = "" ∨ p = "" ∨ e = "" then s
      else (register_user s u p e).1
  | .login u p =>
      if u = "" ∨ p = "" then s
      else if login_user s.store u p then
        ⟨create_user_collection_if_not_exists s.store u, s.nextId, s.clock,
          s.nextSalt, true, u⟩
      else s
  | .reset u e npw cpw =>
      if u = "" ∨ e = "" ∨ npw = "" ∨ cpw = "" then s
      else if npw ≠ cpw then s
      else (reset_password s u e npw).1
  | .generate problem mode style response =>
      if s.logged_in = false then s
      else if problem = "" then s
      else
        match response with
        | none => s
        | some text =>
            if text = "" then s
            else
              let prompt := generate_prompt problem mode style
              let costs := calculate_cost prompt text 4
              save_history s s.session_username mode prompt text costs.1
                costs.2

/-- The state reached from startup by a sequence of user actions. -/
def run (acts : List UserAction) : AppState :=
  acts.foldl step initState

/-- A username is registered when find_user succeeds on it. -/
def is_registered (st : Store) (username : String) : Bool :=
  (find_user st username).isSome

/-- Every generation record lives in a collection whose name is a registered
username. -/
def gen_only_in_registered (s : AppState) : Bool :=
  s.store.all (fun c => c.2.all (fun pt =>
    if is_gen pt.payload then is_registered s.store c.1 else true))

/-- No generation record lives in the user-record collection "users". -/
def no_gen_in_users (s : AppState) : Bool :=
  (usersPoints s.store).all (fun pt => !is_gen pt.payload)

/-- The full invariant of claim C1. -/
def c1_invariant (s : AppState) : Bool :=
  gen_only_in_registered s && no_gen_in_users s

/-- The usernames stored in the "users" collection, in record order. -/
def store_usernames (st : Store) : List String :=
  (usersPoints st).filterMap (fun pt => payload_username pt.payload)

/-- The inductive invariant of the application state machine: every generation
record sits in a collection named after a stored username, a logged-in session
names a stored username, and all point ids are below the freshness counter and
pairwise distinct within each collection. -/
structure ReachInv (s : AppState) : Prop where
  gen_reg : ∀ c ∈ s.store, ∀ pt ∈ c.2, is_gen pt.payload = true →
    c.1 ∈ store_usernames s.store
  logged : s.logged_in = true → s.session_username ∈ store_usernames s.store
  ids_lt : ∀ c ∈ s.store, ∀ pt ∈ c.2, pt.id < s.nextId
  ids_nodup : ∀ c ∈ s.store, (c.2.map Point.id).Nodup

/-- The state reached by registering the account alice from startup; shared by
several concrete scenarios below. -/
def aliceState : AppState :=
  (register_user initState "alice" "pw" "a@x.com").1

theorem scrollPages_eq (fuel : Nat) (pts : Collection) :
    scrollPages fuel pts = pts := by
  induction fuel generalizing pts with
  | zero => rfl
  | succ fuel ih =>
      rw [scrollPages]
      split
      · rfl
      · rw [ih (pts.drop 50), List.take_append_drop]

/-- Paging through the whole collection and concatenating the pages returns
exactly the collection. -/
theorem scrollAll_eq (pts : Collection) : scrollAll pts = pts :=
  scrollPages_eq pts.length pts

theorem takeWhile_of_all (l : List Char) (h : ∀ c ∈ l, (c != '|') = true) :
    l.takeWhile (fun c => c != '|') = l := by
  induction l with
  | nil => rfl
  | cons a t ih =>
      rw [List.takeWhile_cons, h a (by simp)]
      rw [ih (fun c hc => h c (by simp [hc]))]
      simp

theorem takeWhile_sep (l r : List Char) (h : ∀ c ∈ l, (c != '|') = true) :
    (l ++ '|' :: r).takeWhile (fun c => c != '|') = l := by
  induction l with
  | nil => simp [List.takeWhile_cons]
  | cons a t ih =>
      rw [List.cons_append, List.takeWhile_cons, h a (by simp)]
      rw [ih (fun c hc => h c (by simp [hc]))]
      simp

theorem gensalt_chars (n : Nat) :
    ∀ c ∈ (bcrypt_gensalt n).data, (c != '|') = true := by
  intro c hc
  have : c = 'S' := (List.eq_of_mem_replicate hc)
  simp [this]

theorem data_append (a b : String) : (a ++ b).data = a.data ++ b.data := rfl

theorem salt_of_gensalt (n : Nat) :
    bcrypt_salt_of (bcrypt_gensalt n) = bcrypt_gensalt n := by
  unfold bcrypt_salt_of
  rw [takeWhile_of_all _ (gensalt_chars n)]

theorem salt_of_append (a p : String) (h : ∀ c ∈ a.data, (c != '|') = true) :
    bcrypt_salt_of (a ++ "|" ++ p) = a := by
  unfold bcrypt_salt_of
  rw [data_append, data_append]
  rw [List.append_assoc]
  rw [show ("|" : String).data ++ p.data = '|' :: p.data from rfl]
  rw [takeWhile_sep _ _ h]

theorem string_append_right_injective (a p q : String) (h : a ++ p = a ++ q) : p = q := by
  have hd := congrArg String.data h
  rw [data_append, data_append] at hd
  have h2 := List.append_cancel_left hd
  cases p; cases q
  exact congrArg String.mk h2

/-- Round trip of the modelled hasher: verifying a password against its own
hash succeeds. -/
theorem check_hash_self (n : Nat) (p : String) :
    check_password p (bcrypt_hashpw p (bcrypt_gensalt n)) = true := by
  simp only [check_password, bcrypt_hashpw, salt_of_gensalt]
  rw [salt_of_append _ _ (gensalt_chars n)]
  simp

/-- Verifying a different password against a hash fails. -/
theorem check_hash_other (n : Nat) (p q : String) (hpq : p ≠ q) :
    check_password p (bcrypt_hashpw q (bcrypt_gensalt n)) = false := by
  simp only [check_password, bcrypt_hashpw, salt_of_gensalt]
  rw [salt_of_append _ _ (gensalt_chars n)]
  apply beq_eq_false_iff_ne.mpr
  intro heq
  apply hpq
  rw [String.append_assoc, String.append_assoc] at heq
  exact string_append_right_injective _ _ _ (string_append_right_injective _ _ _ heq)

theorem string_empty_append (s : String) : "" ++ s = s := rfl

theorem is_registered_iff (st : Store) (u : String) :
    is_registered st u = true ↔ u ∈ store_usernames st := by
  unfold is_registered find_user store_usernames
  rw [scrollAll_eq]
  cases hf : (usersPoints st).find?
      (fun pt => payload_username pt.payload == some u) with
  | none =>
      rw [show (Option.map Point.payload (none : Option Point)).isSome = false
        from rfl]
      constructor
      · intro h
        exact absurd h Bool.false_ne_true
      · intro hmem
        obtain ⟨pt, hm, hu⟩ := List.mem_filterMap.mp hmem
        exact absurd (beq_iff_eq.mpr hu) ((List.find?_eq_none.mp hf) pt hm)
  | some pt =>
      rw [show (Option.map Point.payload (some pt)).isSome = true from rfl]
      constructor
      · intro _
        have hp := List.find?_some hf
        exact List.mem_filterMap.mpr
          ⟨pt, List.mem_of_find?_eq_some hf, beq_iff_eq.mp hp⟩
      · intro _
        rfl

theorem mem_upsertPoint {pts : Collection} {npt q : Point}
    (h : q ∈ upsertPoint pts npt) : q ∈ pts ∨ q = npt := by
  unfold upsertPoint at h
  split at h
  · obtain ⟨r, hr, hrq⟩ := List.mem_map.mp h
    by_cases hid : (r.id == npt.id) = true
    · right; rw [← hrq, if_pos hid]
    · left; rwa [← hrq, if_neg hid]
  · rcases List.mem_append.mp h with h' | h'
    · exact Or.inl h'
    · exact Or.inr (List.mem_singleton.mp h')

theorem upsertPoint_fresh (pts : Collection) (npt : Point)
    (h : ∀ q ∈ pts, q.id ≠ npt.id) : upsertPoint pts npt = pts ++ [npt] := by
  unfold upsertPoint
  rw [if_neg]
  intro hany
  rw [List.any_eq_true] at hany
  obtain ⟨q, hq, hid⟩ := hany
  exact h q hq (beq_iff_eq.mp hid)

theorem upsertPoint_replace (pts : Collection) (npt : Point)
    (h : pts.any (fun q => q.id == npt.id) = true) :
    upsertPoint pts npt
      = pts.map (fun q => if (q.id == npt.id) = true then npt else q) := by
  unfold upsertPoint
  rw [if_pos h]

theorem upsertPoint_ids_of_replace (pts : Collection) (npt : Point)
    (h : pts.any (fun q => q.id == npt.id) = true) :
    (upsertPoint pts npt).map Point.id = pts.map Point.id := by
  unfold upsertPoint
  rw [if_pos h, List.map_map]
  apply List.map_congr_left
  intro q _
  by_cases hid : (q.id == npt.id) = true
  · simp only [Function.comp_apply, if_pos hid]
    exact (beq_iff_eq.mp hid).symm
  · simp only [Function.comp_apply, if_neg hid]

theorem upsertPoint_nodup (pts : Collection) (npt : Point)
    (h : (pts.map Point.id).Nodup) :
    ((upsertPoint pts npt).map Point.id).Nodup := by
  by_cases hany : (pts.any fun q => q.id == npt.id) = true
  · rw [upsertPoint_ids_of_replace pts npt hany]
    exact h
  · have hfresh : ∀ q ∈ pts, q.id ≠ npt.id := by
      intro q hq heq
      exact hany (List.any_eq_true.mpr ⟨q, hq, beq_iff_eq.mpr heq⟩)
    rw [upsertPoint_fresh pts npt hfresh, List.map_append]
    simp only [List.map_cons, List.map_nil]
    rw [List.nodup_append]
    refine ⟨h, List.nodup_singleton _, ?_⟩
    intro a ha
    simp only [List.mem_singleton]
    intro heq
    obtain ⟨q, hq, hqa⟩ := List.mem_map.mp ha
    exact hfresh q hq (hqa.trans heq)

theorem getCollection_cons (nm : String) (pts : Collection) (t : Store)
    (n : String) :
    getCollection ((nm, pts) :: t) n =
      if nm = n then some pts else getCollection t n := by
  by_cases h : nm = n
  · rw [if_pos h]
    unfold getCollection
    rw [List.find?_cons_of_pos _ (by simp [h])]
    rfl
  · rw [if_neg h]
    unfold getCollection
    rw [List.find?_cons_of_neg _ (by simp [h])]

theorem upsert_cons (nm : String) (pts : Collection) (t : Store)
    (name : String) (pt : Point) :
    upsert ((nm, pts) :: t) name pt =
      (if nm = name then (nm, upsertPoint pts pt) else (nm, pts))
        :: upsert t name pt := by
  unfold upsert
  rw [List.map_cons]
  by_cases h : nm = name
  · rw [if_pos (beq_iff_eq.mpr h), if_pos h]
  · rw [if_neg (fun hh => h (beq_iff_eq.mp hh)), if_neg h]

theorem getCollection_upsert (st : Store) (name n : String) (pt : Point) :
    getCollection (upsert st name pt) n =
      if n = name then (getCollection st n).map (fun pts => upsertPoint pts pt)
      else getCollection st n := by
  induction st with
  | nil => by_cases h : n = name <;> simp [getCollection, upsert, h]
  | cons c t ih =>
      obtain ⟨nm, pts⟩ := c
      rw [upsert_cons]
      by_cases hname : nm = name
      · rw [if_pos hname]
        rw [getCollection_cons]
        by_cases hn : nm = n
        · rw [if_pos hn, if_pos (hn.symm.trans hname)]
          simp only [getCollection_cons, if_pos hn]
          rfl
        · rw [if_neg hn, ih]
          simp only [getCollection_cons, if_neg hn]
      · rw [if_neg hname, getCollection_cons]
        by_cases hn : nm = n
        · rw [if_pos hn, if_neg (fun h => hname (hn.trans h))]
          simp only [getCollection_cons, if_pos hn]
        · rw [if_neg hn, ih]
          simp only [getCollection_cons, if_neg hn]

theorem usersPoints_upsert_users (st : Store) (pt : Point) (pts : Collection)
    (h : getCollection st "users" = some pts) :
    usersPoints (upsert st "users" pt) = upsertPoint pts pt := by
  unfold usersPoints
  rw [getCollection_upsert, if_pos rfl, h]
  rfl

theorem usersPoints_upsert_other (st : Store) (name : String) (pt : Point)
    (h : name ≠ "users") :
    usersPoints (upsert st name pt) = usersPoints st := by
  unfold usersPoints
  rw [getCollection_upsert, if_neg (fun heq => h heq.symm)]

theorem getCollection_append_empty (st : Store) (u n : String) :
    getCollection (st ++ [(u, [])]) n =
      ((getCollection st n).or (if n = u then some [] else none)) := by
  induction st with
  | nil =>
      rw [List.nil_append, getCollection_cons]
      by_cases h : n = u
      · rw [if_pos h.symm, if_pos h]
        rfl
      · rw [if_neg (fun hh => h hh.symm), if_neg h]
        rfl
  | cons c t ih =>
      obtain ⟨nm, pts⟩ := c
      rw [List.cons_append, getCollection_cons, getCollection_cons]
      by_cases h : nm = n
      · rw [if_pos h, if_pos h]
        rfl
      · rw [if_neg h, if_neg h, ih]

theorem store_usernames_append_empty (st : Store) (u : String) :
    store_usernames (st ++ [(u, [])]) = store_usernames st := by
  unfold store_usernames usersPoints
  cases h : getCollection st "users" with
  | none =>
      rw [getCollection_append_empty, h, Option.none_or]
      by_cases hu : "users" = u
      · rw [if_pos hu]
        rfl
      · rw [if_neg hu]
  | some pts =>
      rw [getCollection_append_empty, h]
      rfl

theorem find_user_record_some (st : Store) (u : String) (pt : Point)
    (h : find_user_record st u = some pt) :
    ∃ up : UserPayload, pt.payload = Payload.user up ∧ up.username = u
      ∧ pt ∈ usersPoints st := by
  unfold find_user_record at h
  rw [scrollAll_eq] at h
  have hp := List.find?_some h
  have hm := List.mem_of_find?_eq_some h
  rw [beq_iff_eq] at hp
  cases hpay : pt.payload with
  | user up =>
      refine ⟨up, rfl, ?_, hm⟩
      rw [hpay] at hp
      simpa [payload_username] using hp
  | gen g =>
      rw [hpay] at hp
      simp [payload_username] at hp

theorem getCollection_users_of_mem (st : Store) (pt : Point)
    (h : pt ∈ usersPoints st) :
    getCollection st "users" = some (usersPoints st) := by
  unfold usersPoints at *
  cases hg : getCollection st "users" with
  | none =>
      rw [hg] at h
      simp at h
  | some pts =>
      rfl

theorem find_user_eq_record_map (st : Store) (u : String) :
    find_user st u = (find_user_record st u).map Point.payload := rfl

/-- C4: for every password p (and salt draw n), hashing is total and
verify(p, hash(p)) returns true; and for p ≠ q, verify(p, hash(q)) returns
false. -/
theorem C4_hash_verify_round_trip (n : Nat) (p q : String) :
    check_password p (hash_password n p) = true
    ∧ (p ≠ q → check_password p (hash_password n q) = false) :=
  ⟨check_hash_self n p, fun hpq => check_hash_other n p q hpq⟩

theorem C4_hash_verify_round_trip_witness :
    check_password "pw1" (hash_password 0 "pw1") = true
    ∧ ("pw1" ≠ "pw2"
       ∧ check_password "pw1" (hash_password 0 "pw2") = false) :=
  ⟨(C4_hash_verify_round_trip 0 "pw1" "pw2").1, by decide,
   (C4_hash_verify_round_trip 0 "pw1" "pw2").2 (by decide)⟩

/-- C6: for every pair of texts and every exchange rate, estimate returns
cost_usd = max(1, len(prompt) / 4) * 2.5e-6 + max(1, len(output) / 4) * 10e-6
and cost_local = cost_usd * rate; the 4-char / 8-char example yields
(2.25e-5, 9e-5) at rate 4. -/
theorem C6_cost_estimate :
    (∀ (p g : String) (rate : Rat),
      calculate_cost p g rate =
        (((max 1 (p.length / 4) : Nat) : Rat) * (2.5 / 1000000)
           + ((max 1 (g.length / 4) : Nat) : Rat) * (10.0 / 1000000),
         (((max 1 (p.length / 4) : Nat) : Rat) * (2.5 / 1000000)
           + ((max 1 (g.length / 4) : Nat) : Rat) * (10.0 / 1000000)) * rate))
    ∧ calculate_cost "abcd" "abcdefgh" 4 = (0.0000225, 0.00009) := by
  constructor
  · intro p g rate
    simp only [calculate_cost, approximate_token_count, Prod.mk.injEq]
    constructor <;> ring
  · have h1 : approximate_token_count "abcd" = 1 := rfl
    have h2 : approximate_token_count "abcdefgh" = 2 := rfl
    simp only [calculate_cost, h1, h2]
    norm_num

/-- C7: the prompt builder is total; every result ends with a newline plus
"Problem: " plus the literal problem text; the "funny" mode example ends with
that suffix; the favorite-universe example with style "Tolkien" mentions
"Tolkien" and ends with that suffix; any unnamed mode produces only the
trailing problem statement. -/
theorem C7_prompt_builder :
    (∀ (problem mode : String) (style : Option String),
      ∃ base, generate_prompt problem mode style
        = base ++ ("\nProblem: " ++ problem))
    ∧ (∃ base, generate_prompt "X" "Zabawnie" none = base ++ "\nProblem: X")
    ∧ (∃ a b, generate_prompt "X" "Ulubione Universum" (some "Tolkien")
          = a ++ "Tolkien" ++ b)
    ∧ (∃ c, generate_prompt "X" "Ulubione Universum" (some "Tolkien")
          = c ++ "\nProblem: X")
    ∧ (∀ (problem mode : String) (style : Option String),
        mode ≠ "Ulubione Universum" → mode ≠ "Zabawnie" →
        generate_prompt problem mode style = "\nProblem: " ++ problem) := by
  refine ⟨fun problem mode style => ⟨_, rfl⟩, ?_, ?_, ?_, ?_⟩
  · exact ⟨"Stwórz mi z tego problemu długi, kilkupoziomowy żart, ale taki śmieszny jak w try not laugh, dla osoby, która go nie rozumie, aby mu szczegółowo i po ludzku wytłumaczyć jak, bez żadnych innych wstawek i wytłumaczeń.",
      by decide⟩
  · exact ⟨"Stwórz mi z tego problemu szczegółowe opowiadanie dla osoby, która go nie rozumie, aby mu wytłumaczyć." ++ " Ale w stylu opowiadań ",
      "." ++ "\nProblem: X", by decide⟩
  · exact ⟨"Stwórz mi z tego problemu szczegółowe opowiadanie dla osoby, która go nie rozumie, aby mu wytłumaczyć." ++ " Ale w stylu opowiadań " ++ "Tolkien" ++ ".",
      by decide⟩
  · intro problem mode style h1 h2
    simp only [generate_prompt, if_neg h1, if_neg h2]
    exact string_empty_append _

theorem C7_prompt_builder_witness :
    generate_prompt "Y" "other-mode" none = "\nProblem: " ++ "Y" :=
  C7_prompt_builder.2.2.2.2 "Y" "other-mode" none (by decide) (by decide)

/-- C10: an empty-string style is treated exactly like an absent style in the
narrative mode, and a non-empty style always changes the prompt (the style
clause is appended only for non-empty styles). -/
theorem C10_empty_style_like_none (problem : String) :
    generate_prompt problem "Ulubione Universum" (some "")
      = generate_prompt problem "Ulubione Universum" none
    ∧ (∀ s : String, s ≠ "" →
        generate_prompt problem "Ulubione Universum" (some s)
          ≠ generate_prompt problem "Ulubione Universum" none) := by
  have hnone : style_truthy none = false := rfl
  have hempty : style_truthy (some "") = false := rfl
  constructor
  · simp [generate_prompt, hnone, hempty]
  · intro s hs heq
    have hst : style_truthy (some s) = true := by
      have : s.isEmpty = false := by
        cases h : s.isEmpty
        · rfl
        · exact absurd ((String.isEmpty_iff s).mp h) hs
      simp [style_truthy, this]
    have hlen := congrArg String.length heq
    simp only [generate_prompt, hst, hnone, if_true, Bool.false_eq_true,
      if_false, String.length_append, Option.getD_some] at hlen
    have hdot : String.length "." = 1 := rfl
    omega

theorem C10_empty_style_like_none_witness :
    generate_prompt "X" "Ulubione Universum" (some "")
      = generate_prompt "X" "Ulubione Universum" none
    ∧ generate_prompt "X" "Ulubione Universum" (some "Tolkien")
      ≠ generate_prompt "X" "Ulubione Universum" none :=
  ⟨(C10_empty_style_like_none "X").1,
   (C10_empty_style_like_none "X").2 "Tolkien" (by decide)⟩

/-- C8: ensure_namespace is idempotent, leaves the store unchanged when a
collection named u is already listed, and otherwise appends exactly one new
empty collection named u. -/
theorem C8_ensure_namespace_idempotent (st : Store) (u : String) :
    create_user_collection_if_not_exists
        (create_user_collection_if_not_exists st u) u
      = create_user_collection_if_not_exists st u
    ∧ (u ∈ collectionNames st →
        create_user_collection_if_not_exists st u = st)
    ∧ (u ∉ collectionNames st →
        create_user_collection_if_not_exists st u = st ++ [(u, [])]) := by
  refine ⟨?_, ?_, ?_⟩
  · by_cases h : u ∈ collectionNames st
    · simp [create_user_collection_if_not_exists, h]
    · have e1 : create_user_collection_if_not_exists st u = st ++ [(u, [])] := by
        simp [create_user_collection_if_not_exists, create_collection, h]
      rw [e1]
      have hmem : u ∈ collectionNames (st ++ [(u, [])]) := by
        simp [collectionNames]
      simp [create_user_collection_if_not_exists, hmem]
  · intro h
    simp [create_user_collection_if_not_exists, h]
  · intro h
    simp [create_user_collection_if_not_exists, create_collection, h]

theorem payload_username_set_hashed (p : Payload) (h : String) :
    payload_username (set_hashed p h) = payload_username p := by
  cases p <;> rfl

theorem is_gen_set_hashed (p : Payload) (h : String) :
    is_gen (set_hashed p h) = is_gen p := by
  cases p <;> rfl

theorem mem_of_getCollection (st : Store) (n : String) (pts : Collection)
    (h : getCollection st n = some pts) :
    ∃ c ∈ st, c.1 = n ∧ c.2 = pts := by
  unfold getCollection at h
  cases hf : st.find? (fun c => c.1 == n) with
  | none =>
      rw [hf] at h
      cases h
  | some c =>
      rw [hf] at h
      have hP := List.find?_some hf
      exact ⟨c, List.mem_of_find?_eq_some hf, beq_iff_eq.mp hP,
        Option.some.inj h⟩

theorem upsert_missing (st : Store) (name : String) (pt : Point)
    (h : getCollection st name = none) : upsert st name pt = st := by
  unfold upsert
  have hnone : st.find? (fun c => c.1 == name) = none := by
    unfold getCollection at h
    cases hf : st.find? (fun c => c.1 == name) with
    | none => rfl
    | some c =>
        rw [hf] at h
        cases h
  have hne := List.find?_eq_none.mp hnone
  rw [List.map_congr_left, List.map_id']
  intro c hc
  rw [if_neg (hne c hc)]

theorem mem_upsert_elim {st : Store} {name : String} {npt : Point}
    {c' : String × Collection} (h : c' ∈ upsert st name npt) :
    ∃ c ∈ st, c'.1 = c.1
      ∧ (c' = c ∨ (c.1 = name ∧ c'.2 = upsertPoint c.2 npt)) := by
  unfold upsert at h
  obtain ⟨c, hc, hceq⟩ := List.mem_map.mp h
  by_cases hn : (c.1 == name) = true
  · refine ⟨c, hc, ?_, Or.inr ⟨beq_iff_eq.mp hn, ?_⟩⟩
    · rw [← hceq, if_pos hn]
    · rw [← hceq, if_pos hn]
  · refine ⟨c, hc, ?_, Or.inl ?_⟩
    · rw [← hceq, if_neg hn]
    · rw [← hceq, if_neg hn]

theorem store_usernames_upsert_users_fresh (st : Store) (npt : Point)
    (pts : Collection)
    (hg : getCollection st "users" = some pts)
    (hfresh : ∀ q ∈ pts, q.id ≠ npt.id) :
    store_usernames (upsert st "users" npt)
      = store_usernames st ++ (payload_username npt.payload).toList := by
  unfold store_usernames
  rw [usersPoints_upsert_users st _ _ hg, upsertPoint_fresh pts npt hfresh]
  rw [List.filterMap_append]
  have hpts : usersPoints st = pts := by
    unfold usersPoints
    rw [hg]
    rfl
  rw [hpts]
  cases hp : payload_username npt.payload <;> simp [hp]

theorem store_usernames_upsert_replace (st : Store) (pt npt : Point)
    (hmem : pt ∈ usersPoints st)
    (hid : npt.id = pt.id)
    (hnodup : ((usersPoints st).map Point.id).Nodup)
    (husr : payload_username npt.payload = payload_username pt.payload) :
    store_usernames (upsert st "users" npt) = store_usernames st := by
  have hg := getCollection_users_of_mem st pt hmem
  unfold store_usernames
  rw [usersPoints_upsert_users st _ _ hg]
  rw [upsertPoint_replace _ _
    (List.any_eq_true.mpr ⟨pt, hmem, beq_iff_eq.mpr hid.symm⟩)]
  rw [List.filterMap_map]
  apply List.filterMap_congr
  intro q hq
  by_cases hqid : (q.id == npt.id) = true
  · have hqpt : q = pt :=
      List.inj_on_of_nodup_map hnodup hq hmem
        ((beq_iff_eq.mp hqid).trans hid)
    simp only [Function.comp_apply, if_pos hqid]
    rw [husr, hqpt]
  · simp only [Function.comp_apply, if_neg hqid]

theorem login_user_isSome (st : Store) (u p : String)
    (h : login_user st u p = true) : (find_user st u).isSome = true := by
  unfold login_user at h
  cases hf : find_user st u with
  | none =>
      rw [hf] at h
      cases h
  | some payload => rfl

theorem reachInv_init : ReachInv initState := by
  refine ⟨?_, ?_, ?_, ?_⟩
  · intro c hc pt hpt
    simp only [initState, create_collection, List.nil_append,
      List.mem_singleton] at hc
    subst hc
    exact absurd hpt (List.not_mem_nil pt)
  · intro hlog
    exact absurd hlog (by decide)
  · intro c hc pt hpt
    simp only [initState, create_collection, List.nil_append,
      List.mem_singleton] at hc
    subst hc
    exact absurd hpt (List.not_mem_nil pt)
  · intro c hc
    simp only [initState, create_collection, List.nil_append,
      List.mem_singleton] at hc
    subst hc
    simp

theorem reachInv_register (s : AppState) (u p e : String) (h : ReachInv s) :
    ReachInv (register_user s u p e).1 := by
  cases hb : (find_user s.store u).isSome with
  | true =>
      have heq : (register_user s u p e).1 = s := by
        simp [register_user, hb]
      rw [heq]
      exact h
  | false =>
      have heq : (register_user s u p e).1
          = ⟨upsert s.store "users"
              ⟨s.nextId, [0], Payload.user
                ⟨u, hash_password s.nextSalt p, e, s.clock⟩⟩,
             s.nextId + 1, s.clock + 1, s.nextSalt + 1,
             s.logged_in, s.session_username⟩ := by
        simp [register_user, hb]
      rw [heq]
      cases hg : getCollection s.store "users" with
      | none =>
          have hup : upsert s.store "users"
              (⟨s.nextId, [0], Payload.user
                ⟨u, hash_password s.nextSalt p, e, s.clock⟩⟩ : Point)
              = s.store := upsert_missing _ _ _ hg
          refine ⟨?_, ?_, ?_, ?_⟩
          · intro c hc pt hpt hgen
            rw [hup] at hc ⊢
            exact h.gen_reg c hc pt hpt hgen
          · intro hlog
            rw [hup]
            exact h.logged hlog
          · intro c hc pt hpt
            rw [hup] at hc
            show pt.id < s.nextId + 1
            exact Nat.lt_succ_of_lt (h.ids_lt c hc pt hpt)
          · intro c hc
            rw [hup] at hc
            exact h.ids_nodup c hc
      | some pts =>
          obtain ⟨cu, hcu, hcu1, hcu2⟩ :=
            mem_of_getCollection s.store "users" pts hg
          have hfresh : ∀ q ∈ pts, q.id ≠ s.nextId := fun q hq =>
            Nat.ne_of_lt (h.ids_lt cu hcu q (by rw [hcu2]; exact hq))
          have husr : store_usernames (upsert s.store "users"
              (⟨s.nextId, [0], Payload.user
                ⟨u, hash_password s.nextSalt p, e, s.clock⟩⟩ : Point))
              = store_usernames s.store ++ [u] :=
            store_usernames_upsert_users_fresh s.store _ pts hg hfresh
          refine ⟨?_, ?_, ?_, ?_⟩
          · intro c' hc' pt' hpt' hgen
            obtain ⟨c, hc, hfst, hcase⟩ := mem_upsert_elim hc'
            have hgoal : c'.1 ∈ store_usernames (upsert s.store "users"
                (⟨s.nextId, [0], Payload.user
                  ⟨u, hash_password s.nextSalt p, e, s.clock⟩⟩ : Point)) := by
              rw [husr]
              apply List.mem_append_left
              rcases hcase with hceq | ⟨hcname, hc2⟩
              · rw [hceq] at hpt'
                rw [hfst]
                exact h.gen_reg c hc pt' hpt' hgen
              · rcases mem_upsertPoint (hc2 ▸ hpt') with hold2 | hnew
                · rw [hfst]
                  exact h.gen_reg c hc pt' hold2 hgen
                · rw [hnew] at hgen
                  exact absurd hgen (by simp [is_gen])
            exact hgoal
          · intro hlog
            have hgoal : s.session_username ∈ store_usernames
                (upsert s.store "users"
                  (⟨s.nextId, [0], Payload.user
                    ⟨u, hash_password s.nextSalt p, e, s.clock⟩⟩ : Point)) := by
              rw [husr]
              exact List.mem_append_left _ (h.logged hlog)
            exact hgoal
          · intro c' hc' pt' hpt'
            obtain ⟨c, hc, hfst, hcase⟩ := mem_upsert_elim hc'
            show pt'.id < s.nextId + 1
            rcases hcase with hceq | ⟨_, hc2⟩
            · rw [hceq] at hpt'
              exact Nat.lt_succ_of_lt (h.ids_lt c hc pt' hpt')
            · rcases mem_upsertPoint (hc2 ▸ hpt') with hold2 | hnew
              · exact Nat.lt_succ_of_lt (h.ids_lt c hc pt' hold2)
              · rw [hnew]
                exact Nat.lt_succ_self _
          · intro c' hc'
            obtain ⟨c, hc, hfst, hcase⟩ := mem_upsert_elim hc'
            rcases hcase with hceq | ⟨_, hc2⟩
            · rw [hceq]
              exact h.ids_nodup c hc
            · show ((c'.2).map Point.id).Nodup
              rw [hc2]
              exact upsertPoint_nodup _ _ (h.ids_nodup c hc)

theorem reachInv_login (s : AppState) (u p : String) (h : ReachInv s)
    (hlogin : login_user s.store u p = true) :
    ReachInv ⟨create_user_collection_if_not_exists s.store u, s.nextId,
      s.clock, s.nextSalt, true, u⟩ := by
  have hreg : u ∈ store_usernames s.store :=
    (is_registered_iff s.store u).mp (login_user_isSome s.store u p hlogin)
  by_cases hcont : u ∈ collectionNames s.store
  · have hst : create_user_collection_if_not_exists s.store u = s.store := by
      simp [create_user_collection_if_not_exists, hcont]
    rw [hst]
    exact ⟨h.gen_reg, fun _ => hreg, h.ids_lt, h.ids_nodup⟩
  · have hst : create_user_collection_if_not_exists s.store u
        = s.store ++ [(u, [])] := by
      simp [create_user_collection_if_not_exists, create_collection, hcont]
    rw [hst]
    have husr := store_usernames_append_empty s.store u
    refine ⟨?_, ?_, ?_, ?_⟩
    · intro c hc pt hpt hgen
      have hgoal : c.1 ∈ store_usernames (s.store ++ [(u, [])]) := by
        rw [husr]
        rcases List.mem_append.mp hc with hcl | hcr
        · exact h.gen_reg c hcl pt hpt hgen
        · rw [List.mem_singleton.mp hcr] at hpt
          exact absurd hpt (List.not_mem_nil pt)
      exact hgoal
    · intro _
      have hgoal : u ∈ store_usernames (s.store ++ [(u, [])]) := by
        rw [husr]
        exact hreg
      exact hgoal
    · intro c hc pt hpt
      rcases List.mem_append.mp hc with hcl | hcr
      · exact h.ids_lt c hcl pt hpt
      · rw [List.mem_singleton.mp hcr] at hpt
        exact absurd hpt (List.not_mem_nil pt)
    · intro c hc
      rcases List.mem_append.mp hc with hcl | hcr
      · exact h.ids_nodup c hcl
      · rw [List.mem_singleton.mp hcr]
        simp

theorem reachInv_reset (s : AppState) (u e npw : String) (h : ReachInv s) :
    ReachInv (reset_password s u e npw).1 := by
  cases hf : find_user_record s.store u with
  | none =>
      have heq : (reset_password s u e npw).1 = s := by
        simp [reset_password, hf]
      rw [heq]
      exact h
  | some pt =>
      cases he : (payload_email pt.payload != some e) with
      | true =>
          have heq : (reset_password s u e npw).1 = s := by
            simp [reset_password, hf, he]
          rw [heq]
          exact h
      | false =>
          obtain ⟨up, hup, hun, hmem⟩ := find_user_record_some s.store u pt hf
          have hg := getCollection_users_of_mem s.store pt hmem
          have heq : (reset_password s u e npw).1
              = ⟨upsert s.store "users"
                  ⟨pt.id, [0],
                    set_hashed pt.payload (hash_password s.nextSalt npw)⟩,
                 s.nextId, s.clock, s.nextSalt + 1, s.logged_in,
                 s.session_username⟩ := by
            simp [reset_password, hf, he]
          rw [heq]
          obtain ⟨cu, hcu, hcu1, hcu2⟩ :=
            mem_of_getCollection s.store "users" (usersPoints s.store) hg
          have hnodup0 : ((usersPoints s.store).map Point.id).Nodup := by
            rw [← hcu2]
            exact h.ids_nodup cu hcu
          have husr : store_usernames (upsert s.store "users"
              (⟨pt.id, [0],
                set_hashed pt.payload (hash_password s.nextSalt npw)⟩ : Point))
              = store_usernames s.store :=
            store_usernames_upsert_replace s.store pt _ hmem rfl hnodup0
              (payload_username_set_hashed pt.payload _)
          refine ⟨?_, ?_, ?_, ?_⟩
          · intro c' hc' pt' hpt' hgen
            obtain ⟨c, hc, hfst, hcase⟩ := mem_upsert_elim hc'
            have hgoal : c'.1 ∈ store_usernames (upsert s.store "users"
                (⟨pt.id, [0],
                  set_hashed pt.payload
                    (hash_password s.nextSalt npw)⟩ : Point)) := by
              rw [husr]
              rcases hcase with hceq | ⟨hcname, hc2⟩
              · rw [hceq] at hpt'
                rw [hfst]
                exact h.gen_reg c hc pt' hpt' hgen
              · rcases mem_upsertPoint (hc2 ▸ hpt') with hold2 | hnew
                · rw [hfst]
                  exact h.gen_reg c hc pt' hold2 hgen
                · have hgen2 : is_gen (set_hashed pt.payload
                      (hash_password s.nextSalt npw)) = true := by
                    rw [← hgen, hnew]
                  rw [is_gen_set_hashed, hup] at hgen2
                  exact absurd hgen2 (by simp [is_gen])
            exact hgoal
          · intro hlog
            have hgoal : s.session_username ∈ store_usernames
                (upsert s.store "users"
                  (⟨pt.id, [0],
                    set_hashed pt.payload
                      (hash_password s.nextSalt npw)⟩ : Point)) := by
              rw [husr]
              exact h.logged hlog
            exact hgoal
          · intro c' hc' pt' hpt'
            obtain ⟨c, hc, hfst, hcase⟩ := mem_upsert_elim hc'
            show pt'.id < s.nextId
            rcases hcase with hceq | ⟨_, hc2⟩
            · rw [hceq] at hpt'
              exact h.ids_lt c hc pt' hpt'
            · rcases mem_upsertPoint (hc2 ▸ hpt') with hold2 | hnew
              · exact h.ids_lt c hc pt' hold2
              · have hid : pt'.id = pt.id := by rw [hnew]
                rw [hid]
                exact h.ids_lt cu hcu pt (by rw [hcu2]; exact hmem)
          · intro c' hc'
            obtain ⟨c, hc, hfst, hcase⟩ := mem_upsert_elim hc'
            rcases hcase with hceq | ⟨_, hc2⟩
            · rw [hceq]
              exact h.ids_nodup c hc
            · show ((c'.2).map Point.id).Nodup
              rw [hc2]
              exact upsertPoint_nodup _ _ (h.ids_nodup c hc)

theorem reachInv_save_history (s : AppState) (ty p g : String) (cu cp : Rat)
    (h : ReachInv s) (hlog : s.logged_in = true) :
    ReachInv (save_history s s.session_username ty p g cu cp) := by
  have hreg : s.session_username ∈ store_usernames s.store := h.logged hlog
  have heq : save_history s s.session_username ty p g cu cp
      = ⟨upsert s.store s.session_username
          ⟨s.nextId, [0], Payload.gen ⟨ty, p, g, cu, cp, s.clock⟩⟩,
         s.nextId + 1, s.clock + 1, s.nextSalt, s.logged_in,
         s.session_username⟩ := rfl
  rw [heq]
  have husr : store_usernames (upsert s.store s.session_username
      (⟨s.nextId, [0], Payload.gen ⟨ty, p, g, cu, cp, s.clock⟩⟩ : Point))
      = store_usernames s.store := by
    by_cases hn : s.session_username = "users"
    · rw [hn]
      cases hg : getCollection s.store "users" with
      | none => rw [upsert_missing _ _ _ hg]
      | some pts =>
          obtain ⟨cv, hcv, hcv1, hcv2⟩ :=
            mem_of_getCollection s.store "users" pts hg
          have hfresh : ∀ q ∈ pts, q.id ≠ s.nextId := fun q hq =>
            Nat.ne_of_lt (h.ids_lt cv hcv q (by rw [hcv2]; exact hq))
          rw [store_usernames_upsert_users_fresh s.store _ pts hg hfresh]
          simp [payload_username]
    · unfold store_usernames
      rw [usersPoints_upsert_other _ _ _ hn]
  refine ⟨?_, ?_, ?_, ?_⟩
  · intro c' hc' pt' hpt' hgen
    obtain ⟨c, hc, hfst, hcase⟩ := mem_upsert_elim hc'
    have hgoal : c'.1 ∈ store_usernames (upsert s.store s.session_username
        (⟨s.nextId, [0],
          Payload.gen ⟨ty, p, g, cu, cp, s.clock⟩⟩ : Point)) := by
      rw [husr]
      rcases hcase with hceq | ⟨hcname, hc2⟩
      · rw [hceq] at hpt'
        rw [hfst]
        exact h.gen_reg c hc pt' hpt' hgen
      · rcases mem_upsertPoint (hc2 ▸ hpt') with hold2 | hnew
        · rw [hfst]
          exact h.gen_reg c hc pt' hold2 hgen
        · rw [hfst, hcname]
          exact hreg
    exact hgoal
  · intro _
    have hgoal : s.session_username ∈ store_usernames
        (upsert s.store s.session_username
          (⟨s.nextId, [0],
            Payload.gen ⟨ty, p, g, cu, cp, s.clock⟩⟩ : Point)) := by
      rw [husr]
      exact hreg
    exact hgoal
  · intro c' hc' pt' hpt'
    obtain ⟨c, hc, hfst, hcase⟩ := mem_upsert_elim hc'
    show pt'.id < s.nextId + 1
    rcases hcase with hceq | ⟨_, hc2⟩
    · rw [hceq] at hpt'
      exact Nat.lt_succ_of_lt (h.ids_lt c hc pt' hpt')
    · rcases mem_upsertPoint (hc2 ▸ hpt') with hold2 | hnew
      · exact Nat.lt_succ_of_lt (h.ids_lt c hc pt' hold2)
      · rw [hnew]
        exact Nat.lt_succ_self _
  · intro c' hc'
    obtain ⟨c, hc, hfst, hcase⟩ := mem_upsert_elim hc'
    rcases hcase with hceq | ⟨_, hc2⟩
    · rw [hceq]
      exact h.ids_nodup c hc
    · show ((c'.2).map Point.id).Nodup
      rw [hc2]
      exact upsertPoint_nodup _ _ (h.ids_nodup c hc)

theorem reachInv_step (s : AppState) (a : UserAction) (h : ReachInv s) :
    ReachInv (step s a) := by
  cases a with
  | register u p e =>
      by_cases hg : (u = "" ∨ p = "" ∨ e = "")
      · simp only [step, if_pos hg]
        exact h
      · simp only [step, if_neg hg]
        exact reachInv_register s u p e h
  | login u p =>
      by_cases hg : (u = "" ∨ p = "")
      · simp only [step, if_pos hg]
        exact h
      · by_cases hl : login_user s.store u p = true
        · simp only [step, if_neg hg, hl, if_pos]
          exact reachInv_login s u p h hl
        · have hl' : login_user s.store u p = false := by
            cases hx : login_user s.store u p
            · rfl
            · exact absurd hx hl
          simp only [step, if_neg hg, hl', Bool.false_eq_true, if_false]
          exact h
  | reset u e npw cpw =>
      by_cases hg : (u = "" ∨ e = "" ∨ npw = "" ∨ cpw = "")
      · simp only [step, if_pos hg]
        exact h
      · by_cases hne : npw ≠ cpw
        · simp only [step, if_neg hg, if_pos hne]
          exact h
        · simp only [step, if_neg hg, if_neg hne]
          exact reachInv_reset s u e npw h
  | generate problem mode style response =>
      by_cases hlog : s.logged_in = false
      · simp only [step, if_pos hlog]
        exact h
      · have hlog' : s.logged_in = true := eq_true_of_ne_false hlog
        by_cases hp : problem = ""
        · simp only [step, if_neg hlog, if_pos hp]
          exact h
        · cases response with
          | none =>
              simp only [step, if_neg hlog, if_neg hp]
              exact h
          | some text =>
              by_cases ht : text = ""
              · simp only [step, if_neg hlog, if_neg hp, if_pos ht]
                exact h
              · simp only [step, if_neg hlog, if_neg hp, if_neg ht]
                exact reachInv_save_history s mode
                  (generate_prompt problem mode style) text
                  (calculate_cost (generate_prompt problem mode style) text 4).1
                  (calculate_cost (generate_prompt problem mode style) text 4).2
                  h hlog'

theorem reachInv_foldl (l : List UserAction) :
    ∀ s : AppState, ReachInv s → ReachInv (l.foldl step s) := by
  induction l with
  | nil =>
      intro s hs
      exact hs
  | cons a t ih =>
      intro s hs
      exact ih (step s a) (reachInv_step s a hs)

theorem reachInv_run (acts : List UserAction) : ReachInv (run acts) :=
  reachInv_foldl acts initState reachInv_init

theorem find?_map_replace (l : List Point) (pt npt : Point)
    (P : Point → Bool)
    (hfind : l.find? P = some pt)
    (hid : npt.id = pt.id)
    (hnodup : (l.map Point.id).Nodup)
    (hP : P npt = true) :
    (l.map (fun q => if (q.id == pt.id) = true then npt else q)).find? P
      = some npt := by
  induction l with
  | nil => cases hfind
  | cons a t ih =>
      by_cases ha : P a = true
      · rw [List.find?_cons_of_pos _ ha] at hfind
        have hpa : a = pt := Option.some.inj hfind
        subst hpa
        rw [List.map_cons, if_pos (beq_iff_eq.mpr rfl)]
        exact List.find?_cons_of_pos _ hP
      · rw [List.find?_cons_of_neg _ (by simp [ha])] at hfind
        have hmem : pt ∈ t := List.mem_of_find?_eq_some hfind
        rw [List.map_cons, List.nodup_cons] at hnodup
        have haid : a.id ≠ pt.id := by
          intro heq
          exact hnodup.1 (heq ▸ List.mem_map.mpr ⟨pt, hmem, rfl⟩)
        rw [List.map_cons, if_neg (fun hh => haid (beq_iff_eq.mp hh))]
        rw [List.find?_cons_of_neg _ (by simp [ha])]
        exact ih hfind hnodup.2

/-- C5: reset_password returns true exactly when find_user_record finds the
username and the stored email equals the supplied one; on failure the state is
unchanged; on success the found record is rewritten in place: same id, same
username, email and creation time, only the password hash replaced, and every
collection other than "users" is untouched. -/
theorem C5_reset_password_frame (s : AppState) (u e npw : String) :
    ((reset_password s u e npw).2 = true ↔
      ∃ pt, find_user_record s.store u = some pt
        ∧ payload_email pt.payload = some e)
    ∧ ((reset_password s u e npw).2 = false →
        (reset_password s u e npw).1 = s)
    ∧ (∀ pt, find_user_record s.store u = some pt →
        payload_email pt.payload = some e →
        ∃ up : UserPayload, pt.payload = Payload.user up
          ∧ usersPoints (reset_password s u e npw).1.store
              = (usersPoints s.store).map (fun q =>
                  if q.id = pt.id then
                    ⟨pt.id, [0], Payload.user
                      ⟨up.username, hash_password s.nextSalt npw, up.email,
                        up.created_at⟩⟩
                  else q)
          ∧ (∀ n, n ≠ "users" →
              getCollection (reset_password s u e npw).1.store n
                = getCollection s.store n)) := by
  cases hf : find_user_record s.store u with
  | none =>
      refine ⟨?_, ?_, ?_⟩
      · constructor
        · intro h
          simp [reset_password, hf] at h
        · intro ⟨pt, hpt, _⟩
          exact Option.noConfusion hpt
      · intro _
        simp [reset_password, hf]
      · intro pt hpt
        exact Option.noConfusion hpt
  | some pt =>
      by_cases he : payload_email pt.payload = some e
      · have hcond : (payload_email pt.payload != some e) = false := by
          simp [he]
        refine ⟨?_, ?_, ?_⟩
        · constructor
          · intro _
            exact ⟨pt, rfl, he⟩
          · intro _
            simp [reset_password, hf, hcond]
        · intro h
          simp [reset_password, hf, hcond] at h
        · intro pt' hpt' he'
          have hpe : pt' = pt := (Option.some.inj hpt').symm
          subst hpe
          obtain ⟨up, hup, hun, hmem⟩ := find_user_record_some s.store u pt' hf
          have hg := getCollection_users_of_mem s.store pt' hmem
          have hstore : (reset_password s u e npw).1.store
              = upsert s.store "users"
                  ⟨pt'.id, [0],
                    set_hashed pt'.payload (hash_password s.nextSalt npw)⟩ := by
            simp [reset_password, hf, hcond]
          refine ⟨up, hup, ?_, ?_⟩
          · rw [hstore, usersPoints_upsert_users s.store _ _ hg]
            rw [upsertPoint_replace (usersPoints s.store)
              ⟨pt'.id, [0], set_hashed pt'.payload (hash_password s.nextSalt npw)⟩
              (List.any_eq_true.mpr ⟨pt', hmem, beq_iff_eq.mpr rfl⟩)]
            apply List.map_congr_left
            intro q _
            by_cases hid : q.id = pt'.id
            · simp [hid, hup, set_hashed]
            · simp [hid]
          · intro n hn
            rw [hstore, getCollection_upsert, if_neg hn]
      · have hcond : (payload_email pt.payload != some e) = true := by
          simp [he]
        refine ⟨?_, ?_, ?_⟩
        · constructor
          · intro h
            simp [reset_password, hf, hcond] at h
          · intro ⟨pt', hpt', he'⟩
            have hpe : pt' = pt := (Option.some.inj hpt').symm
            exact absurd (hpe ▸ he') he
        · intro _
          simp [reset_password, hf, hcond]
        · intro pt' hpt' he'
          have hpe : pt' = pt := (Option.some.inj hpt').symm
          exact absurd (hpe ▸ he') he

theorem C5_reset_password_frame_witness :
    (reset_password aliceState "alice" "wrong@x.com" "npw").2 = false
    ∧ (reset_password aliceState "alice" "wrong@x.com" "npw").1
      = aliceState :=
  ⟨by decide,
   (C5_reset_password_frame aliceState "alice" "wrong@x.com" "npw").2.1
     (by decide)⟩

/-- C3 (amended): for a registered user record with matching email, an old
password matching the stored hash, and a new password DIFFERENT from the old
one, reset_password succeeds, login with the new password then succeeds, and
login with the old password then fails.  (When the new password equals the old
one, the final login succeeds instead; see the counterexample.) -/
theorem C3_reset_then_login (s : AppState) (u e old npw : String)
    (pt : Point) (up : UserPayload)
    (hnodup : ((usersPoints s.store).map Point.id).Nodup)
    (hfind : find_user_record s.store u = some pt)
    (hpt : pt.payload = Payload.user up)
    (hemail : up.email = e)
    (hold : check_password old up.hashed_password = true)
    (hne : old ≠ npw) :
    (reset_password s u e npw).2 = true
    ∧ login_user (reset_password s u e npw).1.store u npw = true
    ∧ login_user (reset_password s u e npw).1.store u old = false := by
  have he : payload_email pt.payload = some e := by
    rw [hpt]
    simp [payload_email, hemail]
  have hcond : (payload_email pt.payload != some e) = false := by
    simp [he]
  obtain ⟨up', hup', hun, hmem⟩ := find_user_record_some s.store u pt hfind
  have hupeq : up' = up := by
    rw [hpt] at hup'
    exact (Payload.user.inj hup').symm
  have hun' : up.username = u := hupeq ▸ hun
  have hg := getCollection_users_of_mem s.store pt hmem
  have hstore : (reset_password s u e npw).1.store
      = upsert s.store "users"
          ⟨pt.id, [0], set_hashed pt.payload (hash_password s.nextSalt npw)⟩ := by
    simp [reset_password, hfind, hcond]
  have husers : usersPoints (reset_password s u e npw).1.store
      = (usersPoints s.store).map (fun q =>
          if (q.id == pt.id) = true then
            ⟨pt.id, [0], set_hashed pt.payload (hash_password s.nextSalt npw)⟩
          else q) := by
    rw [hstore, usersPoints_upsert_users s.store _ _ hg]
    exact upsertPoint_replace (usersPoints s.store)
      ⟨pt.id, [0], set_hashed pt.payload (hash_password s.nextSalt npw)⟩
      (List.any_eq_true.mpr ⟨pt, hmem, beq_iff_eq.mpr rfl⟩)
  have hsh : set_hashed pt.payload (hash_password s.nextSalt npw)
      = Payload.user
          ⟨up.username, hash_password s.nextSalt npw, up.email,
            up.created_at⟩ := by
    rw [hpt]
    rfl
  have hfind0 : (usersPoints s.store).find?
      (fun q => payload_username q.payload == some u) = some pt := by
    unfold find_user_record at hfind
    rwa [scrollAll_eq] at hfind
  have hfind' : find_user (reset_password s u e npw).1.store u
      = some (set_hashed pt.payload (hash_password s.nextSalt npw)) := by
    rw [find_user_eq_record_map]
    unfold find_user_record
    rw [scrollAll_eq, husers]
    rw [find?_map_replace (usersPoints s.store) pt
        ⟨pt.id, [0], set_hashed pt.payload (hash_password s.nextSalt npw)⟩
        _ hfind0 rfl hnodup ?hP]
    · rfl
    case hP =>
      rw [show (⟨pt.id, [0],
            set_hashed pt.payload (hash_password s.nextSalt npw)⟩ : Point).payload
          = set_hashed pt.payload (hash_password s.nextSalt npw) from rfl]
      rw [hsh]
      simp [payload_username, hun']
  refine ⟨?_, ?_, ?_⟩
  · simp [reset_password, hfind, hcond]
  · unfold login_user
    rw [hfind', hsh]
    exact check_hash_self s.nextSalt npw
  · unfold login_user
    rw [hfind', hsh]
    exact check_hash_other s.nextSalt old npw hne

theorem C3_reset_then_login_witness :
    (reset_password aliceState "alice" "a@x.com" "nowe").2 = true
    ∧ login_user (reset_password aliceState "alice" "a@x.com" "nowe").1.store
        "alice" "nowe" = true
    ∧ login_user (reset_password aliceState "alice" "a@x.com" "nowe").1.store
        "alice" "pw" = false :=
  C3_reset_then_login aliceState "alice" "a@x.com" "pw" "nowe"
    ⟨0, [0], Payload.user ⟨"alice", hash_password 0 "pw", "a@x.com", 0⟩⟩
    ⟨"alice", hash_password 0 "pw", "a@x.com", 0⟩
    (by decide) (by decide) (by decide) (by decide) (by decide) (by decide)

/-- C3 counterexample: with new password equal to the old one (a case the
claim quantifies over), every premise of the claim holds, reset succeeds, but
the subsequent login with the old password returns true, not false. -/
theorem C3_counterexample_same_password :
    find_user_record aliceState.store "alice"
      = some ⟨0, [0],
          Payload.user ⟨"alice", hash_password 0 "pw", "a@x.com", 0⟩⟩
    ∧ check_password "pw" (hash_password 0 "pw") = true
    ∧ (reset_password aliceState "alice" "a@x.com" "pw").2 = true
    ∧ login_user (reset_password aliceState "alice" "a@x.com" "pw").1.store
        "alice" "pw" = true :=
  ⟨by decide, by decide, by decide, by decide⟩

/-- C2: register fails (returns false) exactly when find_user already finds
the username, leaving the store unchanged; otherwise it returns true and
appends exactly one new user record, with a fresh id (distinct from every
stored user-record id) and the hashed password; and the
register/register/login/login scenario behaves as specified. -/
theorem C2_register_already_exists (s : AppState) (u p e : String) :
    ((register_user s u p e).2 = false ↔ (find_user s.store u).isSome = true)
    ∧ ((find_user s.store u).isSome = true → (register_user s u p e).1 = s)
    ∧ ((find_user s.store u).isSome = false →
        (register_user s u p e).2 = true
        ∧ ((∀ q ∈ usersPoints s.store, q.id < s.nextId) →
            s.nextId ∉ (usersPoints s.store).map Point.id
            ∧ (∀ pts, getCollection s.store "users" = some pts →
                usersPoints (register_user s u p e).1.store
                  = usersPoints s.store
                    ++ [⟨s.nextId, [0], Payload.user
                          ⟨u, hash_password s.nextSalt p, e, s.clock⟩⟩])))
    ∧ ((register_user initState "alice" "pw1" "a@x.com").2 = true
        ∧ (register_user (register_user initState "alice" "pw1" "a@x.com").1
            "alice" "pw2" "b@y.com").2 = false
        ∧ login_user (register_user (register_user initState "alice" "pw1"
            "a@x.com").1 "alice" "pw2" "b@y.com").1.store "alice" "pw1" = true
        ∧ login_user (register_user (register_user initState "alice" "pw1"
            "a@x.com").1 "alice" "pw2" "b@y.com").1.store "alice" "pw2"
            = false) := by
  cases hb : (find_user s.store u).isSome with
  | false =>
      refine ⟨?_, ?_, ?_, by decide⟩
      · simp [register_user, hb]
      · intro hsome
        exact absurd hsome Bool.false_ne_true
      · intro _
        constructor
        · simp [register_user, hb]
        · intro hbound
          constructor
          · intro hmem
            obtain ⟨q, hq, hid⟩ := List.mem_map.mp hmem
            exact Nat.lt_irrefl _ (hid ▸ hbound q hq)
          · intro pts hpts
            have hstore : (register_user s u p e).1.store
                = upsert s.store "users"
                    ⟨s.nextId, [0], Payload.user
                      ⟨u, hash_password s.nextSalt p, e, s.clock⟩⟩ := by
              simp [register_user, hb]
            rw [hstore, usersPoints_upsert_users s.store _ pts hpts]
            have hpteq : usersPoints s.store = pts := by
              unfold usersPoints
              rw [hpts]
              rfl
            rw [upsertPoint_fresh]
            · rw [hpteq]
            · intro q hq
              rw [← hpteq] at hq
              exact Nat.ne_of_lt (hbound q hq)
  | true =>
      refine ⟨?_, ?_, ?_, by decide⟩
      · simp [register_user, hb]
      · intro _
        simp [register_user, hb]
      · intro hfalse
        exact absurd hfalse.symm Bool.false_ne_true

theorem C2_register_already_exists_witness :
    (find_user initState.store "alice").isSome = false
    ∧ (register_user initState "alice" "pw1" "a@x.com").2 = true :=
  ⟨by decide,
   ((C2_register_already_exists initState "alice" "pw1" "a@x.com").2.2.1
     (by decide)).1⟩

/-- C9: starting from an empty collection for account "alice", appending one
generation record and then listing the collection returns exactly one record
whose prompt, generated text and both cost fields equal the appended
inputs. -/
theorem C9_append_then_list_all (s : AppState) (ty p g : String)
    (cu cp : Rat) (h : getCollection s.store "alice" = some []) :
    ∃ (pt : Point) (gp : GenPayload),
      get_history (save_history s "alice" ty p g cu cp).store "alice" = [pt]
      ∧ pt.payload = Payload.gen gp
      ∧ gp.prompt = p ∧ gp.generated_text = g
      ∧ gp.cost_usd = cu ∧ gp.cost_pln = cp := by
  refine ⟨⟨s.nextId, [0], Payload.gen ⟨ty, p, g, cu, cp, s.clock⟩⟩,
    ⟨ty, p, g, cu, cp, s.clock⟩, ?_, rfl, rfl, rfl, rfl, rfl⟩
  unfold get_history
  have hst : (save_history s "alice" ty p g cu cp).store
      = upsert s.store "alice"
          ⟨s.nextId, [0], Payload.gen ⟨ty, p, g, cu, cp, s.clock⟩⟩ := rfl
  rw [hst, getCollection_upsert, if_pos rfl, h, scrollAll_eq]
  rfl

theorem C9_append_then_list_all_witness :
    ∃ (pt : Point) (gp : GenPayload),
      get_history (save_history
          ⟨[("users", []), ("alice", [])], 0, 0, 0, true, "alice"⟩
          "alice" "Zabawnie" "prompt" "tekst" 1 4).store "alice" = [pt]
      ∧ pt.payload = Payload.gen gp
      ∧ gp.prompt = "prompt" ∧ gp.generated_text = "tekst"
      ∧ gp.cost_usd = 1 ∧ gp.cost_pln = 4 :=
  C9_append_then_list_all
    ⟨[("users", []), ("alice", [])], 0, 0, 0, true, "alice"⟩
    "Zabawnie" "prompt" "tekst" 1 4 (by decide)

/-- C1 (amended): in every state reachable from startup by user actions,
every generation record lives in a collection whose name equals a registered
username.  (The original claim additionally demanded that no generation
record is ever written into the collection "users"; that part fails when a
user registers under the username "users" — see the counterexample.) -/
theorem C1_gen_records_in_registered_collections (acts : List UserAction) :
    gen_only_in_registered (run acts) = true := by
  have hinv := reachInv_run acts
  unfold gen_only_in_registered
  rw [List.all_eq_true]
  intro c hc
  rw [List.all_eq_true]
  intro pt hpt
  by_cases hg : is_gen pt.payload = true
  · rw [if_pos hg]
    exact (is_registered_iff _ _).mpr (hinv.gen_reg c hc pt hpt hg)
  · rw [if_neg hg]

/-- C1 counterexample: registering the username "users", logging in as it and
generating once is a legal action sequence after which a generation record
sits inside the user-record collection "users", so the invariant as claimed
(registered-name collections only AND never inside "users") is violated. -/
theorem C1_counterexample_users_username :
    c1_invariant (run [UserAction.register "users" "pw" "e@x",
      UserAction.login "users" "pw",
      UserAction.generate "P" "Zabawnie" none (some "T")]) = false
    ∧ no_gen_in_users (run [UserAction.register "users" "pw" "e@x",
        UserAction.login "users" "pw",
        UserAction.generate "P" "Zabawnie" none (some "T")]) = false := by
  constructor
  · decide
  · decide

theorem C8_ensure_namespace_idempotent_witness :
    create_user_collection_if_not_exists
        (create_user_collection_if_not_exists [("users", [])] "alice") "alice"
      = create_user_collection_if_not_exists [("users", [])] "alice"
    ∧ create_user_collection_if_not_exists [("users", [])] "alice"
      = [("users", [])] ++ [("alice", [])] :=
  ⟨(C8_ensure_namespace_idempotent [("users", [])] "alice").1,
   (C8_ensure_namespace_idempotent [("users", [])] "alice").2.2 (by decide)⟩

end App

